import Mathlib

/-!
Verification of the grape-recorder decimation core against its specification.

The development shallowly embeds the Python sources:
* `src/grape_recorder/core/raw_reader.py` (`RawBinaryReader`)
* `src/grape_recorder/core/decimation_pipeline.py` (`DecimationPipeline`)

The modules `decimation.py` (`StatefulDecimator`) and `decimated_buffer.py`
(`DecimatedBuffer`) are imported by the pipeline but their sources are not in
the repository snapshot; they are modelled from the specification (§4.2/§4.3),
with each such definition marked `Modelled from the spec:` in its doc comment.

Complex IQ samples carry no arithmetic that any claim depends on beyond
filtering/summation, so a sample is embedded as a pair of integers
(real, imaginary); metadata floats are embedded as exact rationals since the
code only passes them through.
-/

namespace GrapeRecorder

/-- One complex IQ sample: (real, imaginary) component pair. -/
abbrev Sample := Int × Int

/-- Per-minute metadata, as read from the sibling `.json` file.  Each field is
optional because the Python code looks keys up with `in` / `.get` defaults. -/
structure Meta where
  sampleRate : Option Nat
  dClockMs : Option ℚ
  uncertaintyMs : Option ℚ
  qualityGrade : Option Char
  gapSamples : Option Int
  deriving DecidableEq, Repr

/-- The three sample encodings `read_minute` knows, in source order:
uncompressed `.bin`, zstd `.bin.zst`, lz4 `.bin.lz4`. -/
inductive Codec
  | bin
  | zst
  | lz4
  deriving DecidableEq, Repr

/-- The on-disk state of one minute's files inside a day directory.
`none` means the file does not exist; `some (Except.error ())` means the file
exists but reading/decoding it fails (corrupt payload, missing codec module,
memmap error — every path the Python code catches); `some (Except.ok v)` means
it decodes to `v`. -/
structure MinuteDir where
  bin : Option (Except Unit (List Sample))
  zst : Option (Except Unit (List Sample))
  lz4 : Option (Except Unit (List Sample))
  json : Option (Except Unit Meta)

/-- The samples a single codec would deliver for this minute: `none` when its
file is absent or its decode fails. -/
def codecYield (d : MinuteDir) (c : Codec) : Option (List Sample) :=
  match c with
  | Codec.bin => match d.bin with | some (Except.ok s) => some s | _ => none
  | Codec.zst => match d.zst with | some (Except.ok s) => some s | _ => none
  | Codec.lz4 => match d.lz4 with | some (Except.ok s) => some s | _ => none

/-- One `if samples is None:` block of `read_minute`: when no samples were
obtained yet and the codec's file exists, the decode is attempted (recorded in
the trace); a failed decode is caught and leaves the result absent. -/
def tryCodec (file : Option (Except Unit (List Sample))) (c : Codec)
    (acc : Option (List Sample) × List Codec) :
    Option (List Sample) × List Codec :=
  match acc.1 with
  | some s => (some s, acc.2)
  | none =>
    match file with
    | none => (none, acc.2)
    | some (Except.ok s) => (some s, acc.2 ++ [c])
    | some (Except.error _) => (none, acc.2 ++ [c])

/-- `read_minute`'s sample-reading phase (raw_reader.py lines 98–137), plus a
trace of which codecs were attempted, in order. -/
def readSamplesTrace (d : MinuteDir) : Option (List Sample) × List Codec :=
  tryCodec d.lz4 Codec.lz4 (tryCodec d.zst Codec.zst (tryCodec d.bin Codec.bin (none, [])))

/-- `read_minute`'s metadata phase (raw_reader.py lines 139–147): a missing or
unreadable `.json` file degrades to `none`. -/
def readMeta (d : MinuteDir) : Option Meta :=
  match d.json with
  | some (Except.ok m) => some m
  | _ => none

/-- `RawBinaryReader.read_minute`: returns `(samples | absent, metadata | absent)`. -/
def readMinute (d : MinuteDir) : Option (List Sample) × Option Meta :=
  ((readSamplesTrace d).1, readMeta d)

/-! ### Directory scanning: `get_available_minutes` (raw_reader.py lines 47–79)

Filenames are embedded as character lists; the `day_dir.glob('*.bin*')` scan
together with the `'.bin' in name` / `stem.isdigit()` checks reduces to: keep
every file whose name contains `.bin`, take the part before the first
occurrence, and accept it when it is a nonempty digit string. -/

/-- `leadsWith pat l` is true when `pat` is an initial segment of `l`. -/
def leadsWith : List Char → List Char → Bool
  | [], _ => true
  | _ :: _, [] => false
  | p :: ps, c :: cs => p == c && leadsWith ps cs

/-- Python `name.split(pat)[0]` guarded by `pat in name`: the prefix of `name`
before the first occurrence of `pat`, or `none` when `pat` does not occur. -/
def stemBefore (pat : List Char) : List Char → Option (List Char)
  | [] => none
  | c :: cs =>
    if leadsWith pat (c :: cs) then some []
    else (stemBefore pat cs).map (fun t => c :: t)

/-- Value of a decimal digit string, Python `int(stem)` for `stem.isdigit()`. -/
def digitsToNat (stem : List Char) : Nat :=
  stem.foldl (fun acc c => 10 * acc + (c.toNat - 48)) 0

/-- One iteration of the scan loop (raw_reader.py lines 67–77): the minute
timestamp a filename contributes, if any. -/
def parseMinuteStem (name : List Char) : Option Nat :=
  match stemBefore ['.', 'b', 'i', 'n'] name with
  | none => none
  | some stem =>
    if !stem.isEmpty && stem.all Char.isDigit then some (digitsToNat stem)
    else none

/-- Insertion into a strictly ascending list, dropping duplicates: the model
of adding to the Python `set` followed by `sorted(list(...))`. -/
def insertMinute (m : Nat) : List Nat → List Nat
  | [] => [m]
  | x :: xs =>
    if m < x then m :: x :: xs
    else if m = x then x :: xs
    else x :: insertMinute m xs

/-- `RawBinaryReader.get_available_minutes`: `none` models a missing day
directory (returns `[]` with a warning); otherwise the digit stems of all
`.bin`-matching files, deduplicated and sorted ascending. -/
def getAvailableMinutes (dayDir : Option (List (List Char))) : List Nat :=
  match dayDir with
  | none => []
  | some files =>
    (files.filterMap parseMinuteStem).foldl (fun acc m => insertMinute m acc) []

/-- The three filenames under which `read_minute` looks for minute `m`'s
samples (raw_reader.py lines 102, 112, 127): `{ts}.bin`, `{ts}.bin.zst`,
`{ts}.bin.lz4` with the timestamp printed in decimal. -/
def supportedSampleNames (m : Nat) : List (List Char) :=
  [(Nat.repr m).data ++ ['.', 'b', 'i', 'n'],
   (Nat.repr m).data ++ ['.', 'b', 'i', 'n', '.', 'z', 's', 't'],
   (Nat.repr m).data ++ ['.', 'b', 'i', 'n', '.', 'l', 'z', '4']]

/-- Minute `m` has at least one supported sample encoding among `files`. -/
def supportedEncodingPresent (files : List (List Char)) (m : Nat) : Prop :=
  ∃ n ∈ supportedSampleNames m, n ∈ files

instance (files : List (List Char)) (m : Nat) :
    Decidable (supportedEncodingPresent files m) := by
  unfold supportedEncodingPresent
  infer_instance

/-! ### Day-level reader model: `read_day` and `get_sample_rate`

At the level the pipeline consumes the reader, a channel-day's filesystem is
an association list from minute timestamp to that minute's files; `none`
models a missing day directory.  Filenames here are the well-formed
`{ts}.bin*` / `{ts}.json` forms the recorder writes, so the `*.bin*` glob of
`get_available_minutes` reduces to: a minute is listed exactly when at least
one of its three sample files exists (the `.json` file does not match the
glob).  The filename-level scan itself is analysed separately via
`getAvailableMinutes`. -/

/-- Filesystem of one channel-day. -/
def DayFS := Option (List (Nat × MinuteDir))

/-- A minute with no files at all. -/
def emptyMinuteDir : MinuteDir := ⟨none, none, none, none⟩

/-- The files belonging to minute `ts`. -/
def minuteDirOf (fs : DayFS) (ts : Nat) : MinuteDir :=
  match fs with
  | none => emptyMinuteDir
  | some entries =>
    ((entries.find? (fun e => e.1 == ts)).map Prod.snd).getD emptyMinuteDir

/-- `get_available_minutes` at the day level: the minutes owning at least one
sample file, ascending and deduplicated. -/
def availableMinutes (fs : DayFS) : List Nat :=
  match fs with
  | none => []
  | some entries =>
    (((entries.filter
        (fun e => e.2.bin.isSome || e.2.zst.isSome || e.2.lz4.isSome)).map
      Prod.fst).foldl (fun acc m => insertMinute m acc) [])

/-- `RawBinaryReader.read_day` (raw_reader.py lines 151–166): yields
`(timestamp, samples | absent, metadata | absent)` for every available
minute, ascending. -/
def readDay (fs : DayFS) : List (Nat × Option (List Sample) × Option Meta) :=
  (availableMinutes fs).map fun ts => (ts, readMinute (minuteDirOf fs ts))

/-- `RawBinaryReader.get_sample_rate` (raw_reader.py lines 168–181): 24000
when the day has no minutes; otherwise the `sample_rate` field of the first
available minute's metadata, or 24000 when that metadata is absent or lacks
the field. -/
def getSampleRate (fs : DayFS) : Nat :=
  match availableMinutes fs with
  | [] => 24000
  | ts :: _ =>
    match (readMinute (minuteDirOf fs ts)).2 with
    | some meta =>
      match meta.sampleRate with
      | some r => r
      | none => 24000
    | none => 24000

/-- Concrete channel-day for the `get_sample_rate` analysis: minute `0` has
samples but no metadata file, minute `60` has samples and metadata declaring
`sample_rate = 20000`. -/
def sampleRateDayFS : DayFS :=
  some [(0, ⟨some (Except.ok [(1, 0)]), none, none, none⟩),
        (60, ⟨some (Except.ok [(1, 0)]), none, none,
          some (Except.ok ⟨some 20000, none, none, none, none⟩)⟩)]

/-! ### StatefulDecimator (spec-modelled, §4.2) -/

/-- Modelled from the spec: `decimation.py` (`StatefulDecimator`) is not in
the repository snapshot (only its callers are).  §4.2/§3 `DecimatorState`:
constructed with `(input_rate, output_rate)`, the output rate evenly dividing
the input rate so the decimation ratio is fixed before any minute is
processed; owns filter history carried across calls so consecutive minutes
concatenate without a seam.  `carry` is the partial decimation block awaiting
completion — the filter history plus the fractional-phase accumulator. -/
structure StatefulDecimator where
  inputRate : Nat
  outputRate : Nat
  decim : Nat
  carry : List Sample
  deriving DecidableEq

/-- Modelled from the spec: decimator construction; the ratio
`input_rate / output_rate` is fixed here, before any minute is processed. -/
def StatefulDecimator.init (inputRate outputRate : Nat) : StatefulDecimator :=
  ⟨inputRate, outputRate, inputRate / outputRate, []⟩

/-- Anti-aliasing low-pass + downsample: each output sample is the (boxcar
FIR) sum of one complete block of `decim` consecutive input samples. -/
def blockSums (decim : Nat) (buf : List Sample) (n : Nat) : List Sample :=
  (List.range n).map fun i => ((buf.drop (i * decim)).take decim).foldl (· + ·) (0, 0)

/-- Modelled from the spec: `StatefulDecimator.process` (§4.2).  The carried
partial block is prepended to the new samples, every complete block of
`decim` samples is low-pass filtered into one output sample, and the
incomplete tail becomes the new carry.  A zero-length input yields a
zero-length output without mutating state. -/
def StatefulDecimator.process (st : StatefulDecimator) (x : List Sample) :
    List Sample × StatefulDecimator :=
  (blockSums st.decim (st.carry ++ x) ((st.carry ++ x).length / st.decim),
    { st with carry := (st.carry ++ x).drop ((st.carry ++ x).length / st.decim * st.decim) })

/-! ### DecimatedBuffer (spec-modelled, §4.3) -/

/-- One written slot: the minute's decimated payload plus its metadata row. -/
structure SlotData where
  iq : List Sample
  dClockMs : ℚ
  uncertaintyMs : ℚ
  qualityGrade : Char
  gapSamples : Int
  deriving DecidableEq

/-- Modelled from the spec: `decimated_buffer.py` (`DecimatedBuffer`) is not
in the repository snapshot (only its callers are).  §4.3/§3 `DailyBuffer`:
one channel, one UTC day, 1440 fixed minute slots; a slot is either unwritten
(`none`, the sentinel) or holds a written `SlotData`.  `dayStart` is the
day's UTC midnight in epoch seconds. -/
structure DecimatedBuffer where
  dayStart : Nat
  outputRate : Nat
  slots : List (Option SlotData)
  deriving DecidableEq

/-- Modelled from the spec: a freshly created buffer — all 1440 slots
sentinel-initialized. -/
def DecimatedBuffer.init (dayStart outputRate : Nat) : DecimatedBuffer :=
  ⟨dayStart, outputRate, List.replicate 1440 none⟩

/-- Modelled from the spec: `DecimatedBuffer.write_minute` (§4.3): reject
(returning `false` with no mutation) a timestamp that is not minute-aligned
or outside the buffer's day, then a payload whose length is not
`output_rate * 60`; an accepted write overwrites slot
`minutes_since_midnight` with payload and metadata row (idempotent upsert)
and returns `true`. -/
def DecimatedBuffer.writeMinute (b : DecimatedBuffer) (minuteUtc : Nat)
    (iq : List Sample) (dClock unc : ℚ) (grade : Char) (gaps : Int) :
    Bool × DecimatedBuffer :=
  if minuteUtc % 60 ≠ 0 ∨ minuteUtc < b.dayStart ∨ b.dayStart + 86400 ≤ minuteUtc then
    (false, b)
  else if iq.length ≠ b.outputRate * 60 then
    (false, b)
  else
    (true, { b with
      slots := b.slots.set ((minuteUtc - b.dayStart) / 60)
        (some ⟨iq, dClock, unc, grade, gaps⟩) })

/-! ### DecimationPipeline (decimation_pipeline.py) -/

/-- Metadata extraction default (decimation_pipeline.py lines 130, 134–135):
`d_clock = meta.get('d_clock_ms', 0.0)` under `if meta:`, else `0.0`. -/
def dClockOf : Option Meta → ℚ
  | some m => m.dClockMs.getD 0
  | none => 0

/-- Metadata extraction default (lines 131, 136): `999.9`. -/
def uncOf : Option Meta → ℚ
  | some m => m.uncertaintyMs.getD 999.9
  | none => 999.9

/-- Metadata extraction default (lines 132, 137): grade `'X'`. -/
def gradeOf : Option Meta → Char
  | some m => m.qualityGrade.getD 'X'
  | none => 'X'

/-- Forwarded upstream gap count (lines 102, 109–110): `meta['gap_samples']`
when present, else `0`. -/
def gapInfoOf : Option Meta → Int
  | some m => m.gapSamples.getD 0
  | none => 0

/-- The mutable state of one `_process_channel_day` run: the channel's
decimator, the day's buffer, and the three counters initialized at
decimation_pipeline.py lines 95–97. -/
structure RunState where
  decimator : StatefulDecimator
  buffer : DecimatedBuffer
  minutesProcessed : Nat
  samplesGenerated : Nat
  gapsDetected : Nat
  deriving DecidableEq

/-- One iteration of the minute loop of `_process_channel_day`
(decimation_pipeline.py lines 100–154): absent or empty samples are skipped
without touching the decimator; present samples are decimated; a non-empty
chunk is written with metadata (or its defaults), and on write success the
minutes/samples counters advance.  `gaps_detected` is never modified, as in
the source. -/
def stepMinute (st : RunState) (e : Nat × Option (List Sample) × Option Meta) :
    RunState :=
  match e.2.1 with
  | none => st
  | some s =>
    if s.length = 0 then st
    else if (st.decimator.process s).1.length = 0 then
      { st with decimator := (st.decimator.process s).2 }
    else if (st.buffer.writeMinute e.1 (st.decimator.process s).1 (dClockOf e.2.2)
        (uncOf e.2.2) (gradeOf e.2.2) (gapInfoOf e.2.2)).1 then
      ⟨(st.decimator.process s).2,
        (st.buffer.writeMinute e.1 (st.decimator.process s).1 (dClockOf e.2.2)
          (uncOf e.2.2) (gradeOf e.2.2) (gapInfoOf e.2.2)).2,
        st.minutesProcessed + 1,
        st.samplesGenerated + (st.decimator.process s).1.length,
        st.gapsDetected⟩
    else
      ⟨(st.decimator.process s).2,
        (st.buffer.writeMinute e.1 (st.decimator.process s).1 (dClockOf e.2.2)
          (uncOf e.2.2) (gradeOf e.2.2) (gapInfoOf e.2.2)).2,
        st.minutesProcessed, st.samplesGenerated, st.gapsDetected⟩

/-- The minute loop over a ready-made day stream, from a fresh decimator with
the pipeline's fixed `output_rate = 10` (decimation_pipeline.py line 93) and
the given starting buffer. -/
def runMinutes (entries : List (Nat × Option (List Sample) × Option Meta))
    (inputRate : Nat) (b : DecimatedBuffer) : RunState :=
  entries.foldl stepMinute ⟨StatefulDecimator.init inputRate 10, b, 0, 0, 0⟩

/-- `DecimationPipeline._process_channel_day` (lines 81–156): resolve the
input rate, build one fresh decimator, and drive the day's minute stream
against the channel-day buffer. -/
def processChannelDay (fs : DayFS) (b : DecimatedBuffer) : RunState :=
  runMinutes (readDay fs) (getSampleRate fs) b

/-- The per-channel summary emitted at the end of a channel-day run
(decimation_pipeline.py line 156): minutes processed and samples generated. -/
structure ChannelSummary where
  minutesProcessed : Nat
  samplesGenerated : Nat
  deriving DecidableEq

/-- The summary `_process_channel_day` logs at its end. -/
def emitSummary (st : RunState) : ChannelSummary :=
  ⟨st.minutesProcessed, st.samplesGenerated⟩

/-- The channel loop of `DecimationPipeline.process_day` (lines 75–79): each
channel's day is attempted in order; an exception is caught and logged
(`none` outcome) and the loop continues with the remaining channels.  The
per-channel run is abstracted as a fallible function, since any unexpected
fault may escape `_process_channel_day`. -/
def processDayLoop (run : String → Except String ChannelSummary)
    (channels : List String) : List (String × Option ChannelSummary) :=
  channels.map fun ch => (ch, (run ch).toOption)

/-- Concrete channel-day for the gap-counter analysis: minute `0` exists but
its payload is corrupt (an absent minute, a gap per §7), minute `60` has
samples and forwards an upstream `gap_samples = 5` through metadata. -/
def gapsDayFS : DayFS :=
  some [(0, ⟨some (Except.error ()), none, none, none⟩),
        (60, ⟨some (Except.ok [(1, 0)]), none, none,
          some (Except.ok ⟨none, none, none, none, some 5⟩)⟩)]

/-! ### Write-sequence decomposition (proof support for idempotence)

A channel-day run touches its buffer only through accepted `write_minute`
calls, whose slots and payloads are computed from the decimator state stream
alone; the buffer's evolution is the application of that write sequence. -/

/-- Apply a sequence of slot writes in order (later writes overwrite). -/
def applyWrites (ws : List (Nat × SlotData)) (slots : List (Option SlotData)) :
    List (Option SlotData) :=
  ws.foldl (fun acc w => acc.set w.1 (some w.2)) slots

/-- The last value written to slot `i` by the sequence, if any. -/
def lastSet : List (Nat × SlotData) → Nat → Option SlotData
  | [], _ => none
  | w :: ws, i =>
    match lastSet ws i with
    | some v => some v
    | none => if w.1 = i then some w.2 else none

/-- The accepted writes a minute stream produces, given the buffer's day
start and output rate (which `write_minute` never changes) and the evolving
decimator.  Mirrors the branch structure of `stepMinute` and the acceptance
tests of `writeMinute`. -/
def writeOps (dayStart orate : Nat) :
    StatefulDecimator → List (Nat × Option (List Sample) × Option Meta) →
    List (Nat × SlotData)
  | _, [] => []
  | d, e :: rest =>
    match e.2.1 with
    | none => writeOps dayStart orate d rest
    | some s =>
      if s.length = 0 then writeOps dayStart orate d rest
      else if (d.process s).1.length = 0 then
        writeOps dayStart orate (d.process s).2 rest
      else if (e.1 % 60 ≠ 0 ∨ e.1 < dayStart ∨ dayStart + 86400 ≤ e.1)
          ∨ (d.process s).1.length ≠ orate * 60 then
        writeOps dayStart orate (d.process s).2 rest
      else
        ((e.1 - dayStart) / 60,
          ⟨(d.process s).1, dClockOf e.2.2, uncOf e.2.2, gradeOf e.2.2, gapInfoOf e.2.2⟩)
          :: writeOps dayStart orate (d.process s).2 rest

/-! ## Theorems -/

/-- C4: `read_minute` always returns a (samples-or-absent, metadata-or-absent)
pair; its samples component is exactly the first codec yield in precedence
order, where a missing file, a corrupt payload or a missing codec module all
yield `none`; its metadata component is `none` whenever the metadata file is
missing or unreadable.  In particular when everything fails the result is
`(none, none)` — failures degrade to absent instead of escaping. -/
theorem readMinute_total_degrade (d : MinuteDir) :
    readMinute d =
      (((codecYield d Codec.bin).orElse fun _ =>
          (codecYield d Codec.zst).orElse fun _ => codecYield d Codec.lz4),
        readMeta d)
    ∧ ((∀ c, codecYield d c = none) → (readMinute d).1 = none)
    ∧ (d.json = none ∨ (∃ e, d.json = some (Except.error e)) → (readMinute d).2 = none) := by
  obtain ⟨b, z, l, j⟩ := d
  refine ⟨?_, ?_, ?_⟩
  · rcases b with _ | (b | b) <;> rcases z with _ | (z | z) <;>
      rcases l with _ | (l | l) <;>
      simp [readMinute, readSamplesTrace, tryCodec, codecYield, Option.orElse]
  · intro h
    have hb := h Codec.bin
    have hz := h Codec.zst
    have hl := h Codec.lz4
    rcases b with _ | (b | b) <;> rcases z with _ | (z | z) <;>
      rcases l with _ | (l | l) <;>
      simp_all [readMinute, readSamplesTrace, tryCodec, codecYield]
  · intro h
    rcases h with h | ⟨e, h⟩ <;> simp_all [readMinute, readMeta]

/-- Closed witness for `readMinute_total_degrade`: a minute whose `.bin` is
corrupt, `.bin.zst` decodes, `.lz4` is absent and metadata file is corrupt. -/
theorem readMinute_total_degrade_witness :
    readMinute ⟨some (Except.error ()), some (Except.ok [(1, 2)]), none,
        some (Except.error ())⟩ = (some [(1, 2)], none) :=
  (readMinute_total_degrade ⟨some (Except.error ()), some (Except.ok [(1, 2)]),
      none, some (Except.error ())⟩).1.trans rfl

/-- C5: `read_minute` tries the encodings in the fixed source order
`.bin`, `.bin.zst`, `.bin.lz4`: the attempt trace is always an ordered
sublist of `[bin, zst, lz4]`; `.bin` is attempted exactly when its file
exists; a later codec is attempted exactly when its file exists and every
earlier codec yielded no samples.  The codec table has the uncompressed form
plus the two independent lossless codecs zstd and lz4. -/
theorem readMinute_codec_precedence (d : MinuteDir) :
    List.Sublist (readSamplesTrace d).2 [Codec.bin, Codec.zst, Codec.lz4]
    ∧ (Codec.bin ∈ (readSamplesTrace d).2 ↔ d.bin.isSome)
    ∧ (Codec.zst ∈ (readSamplesTrace d).2 ↔
        d.zst.isSome ∧ codecYield d Codec.bin = none)
    ∧ (Codec.lz4 ∈ (readSamplesTrace d).2 ↔
        d.lz4.isSome ∧ codecYield d Codec.bin = none
          ∧ codecYield d Codec.zst = none) := by
  obtain ⟨b, z, l, j⟩ := d
  rcases b with _ | (b | b) <;> rcases z with _ | (z | z) <;>
    rcases l with _ | (l | l) <;>
    refine ⟨?_, ?_, ?_, ?_⟩ <;>
    simp [readSamplesTrace, tryCodec, codecYield]

theorem insertMinute_mem (a m : Nat) (l : List Nat) :
    a ∈ insertMinute m l ↔ a = m ∨ a ∈ l := by
  induction l with
  | nil => simp [insertMinute]
  | cons x xs ih =>
    by_cases h1 : m < x
    · simp [insertMinute, h1]
    · by_cases h2 : m = x
      · subst h2
        simp [insertMinute, h1]
      · simp [insertMinute, h1, h2, ih]
        tauto

theorem insertMinute_sorted (m : Nat) (l : List Nat)
    (h : List.Sorted (· < ·) l) : List.Sorted (· < ·) (insertMinute m l) := by
  induction l with
  | nil => simp [insertMinute]
  | cons x xs ih =>
    rw [List.sorted_cons] at h
    by_cases h1 : m < x
    · rw [insertMinute, if_pos h1, List.sorted_cons]
      refine ⟨?_, ?_⟩
      · intro b hb
        rcases List.mem_cons.mp hb with rfl | hb
        · exact h1
        · exact h1.trans (h.1 b hb)
      · rw [List.sorted_cons]
        exact h
    · by_cases h2 : m = x
      · rw [insertMinute, if_neg h1, if_pos h2, List.sorted_cons]
        exact h
      · rw [insertMinute, if_neg h1, if_neg h2, List.sorted_cons]
        refine ⟨?_, ih h.2⟩
        intro b hb
        rcases (insertMinute_mem b m xs).mp hb with rfl | hb
        · omega
        · exact h.1 b hb

theorem foldl_insertMinute_sorted (ms : List Nat) (acc : List Nat)
    (h : List.Sorted (· < ·) acc) :
    List.Sorted (· < ·) (ms.foldl (fun a m => insertMinute m a) acc) := by
  induction ms generalizing acc with
  | nil => simpa using h
  | cons m ms ih => exact ih _ (insertMinute_sorted m acc h)

theorem foldl_insertMinute_mem (ms : List Nat) (acc : List Nat) (a : Nat) :
    a ∈ ms.foldl (fun l m => insertMinute m l) acc ↔ a ∈ ms ∨ a ∈ acc := by
  induction ms generalizing acc with
  | nil => simp
  | cons m ms ih =>
    simp only [List.foldl_cons, ih, insertMinute_mem, List.mem_cons]
    tauto

/-- C9 counterexample: a day directory holding only `100.bin.gz` — a file
matched by the `*.bin*` glob whose overall extension is not a supported
encoding.  `get_available_minutes` lists minute `100` although none of the
three filenames `read_minute` would look for exists, refuting the claim that
only minutes with a supported encoding are returned. -/
theorem getAvailableMinutes_unsupported_ext_counterexample :
    getAvailableMinutes (some [['1', '0', '0', '.', 'b', 'i', 'n', '.', 'g', 'z']]) = [100]
    ∧ ¬ supportedEncodingPresent [['1', '0', '0', '.', 'b', 'i', 'n', '.', 'g', 'z']] 100 := by
  decide

/-- C9 amended: `get_available_minutes` returns, strictly ascending and
therefore duplicate-free, exactly the digit stems of the files whose name
contains `.bin` (which covers every supported encoding but may also admit
files with an unsupported overall extension); a missing day directory yields
the empty list. -/
theorem getAvailableMinutes_sorted_characterization
    (dayDir : Option (List (List Char))) :
    List.Sorted (· < ·) (getAvailableMinutes dayDir)
    ∧ (getAvailableMinutes dayDir).Nodup
    ∧ (∀ m, m ∈ getAvailableMinutes dayDir ↔
        ∃ files, dayDir = some files ∧ ∃ f ∈ files, parseMinuteStem f = some m)
    ∧ (dayDir = none → getAvailableMinutes dayDir = []) := by
  cases dayDir with
  | none => simp [getAvailableMinutes]
  | some files =>
    have hsort : List.Sorted (· < ·) (getAvailableMinutes (some files)) :=
      foldl_insertMinute_sorted _ _ (by simp)
    refine ⟨hsort, hsort.nodup, ?_, by simp⟩
    intro m
    simp [getAvailableMinutes, foldl_insertMinute_mem, List.mem_filterMap]

/-- C6 counterexample: in `sampleRateDayFS`, minute `60` is available and its
metadata carries `sample_rate = 20000`, yet `get_sample_rate` returns the
24000 default because only the *first* available minute (`0`, which has no
metadata file) is consulted — refuting the claim that the field of any
minute's metadata is honoured over the default. -/
theorem getSampleRate_ignores_later_minutes :
    getSampleRate sampleRateDayFS = 24000
    ∧ 60 ∈ availableMinutes sampleRateDayFS
    ∧ (readMinute (minuteDirOf sampleRateDayFS 60)).2 =
        some ⟨some 20000, none, none, none, none⟩ := by
  decide

/-- C6 amended: `get_sample_rate` returns 24000 when the day has no available
minutes; otherwise it consults only the first yielded minute — returning its
metadata's `sample_rate` field when the metadata is present and carries the
field, and the 24000 default otherwise, even when a later minute's metadata
carries the field. -/
theorem getSampleRate_first_minute (fs : DayFS) :
    (readDay fs = [] → getSampleRate fs = 24000)
    ∧ (∀ ts s meta rest, readDay fs = (ts, s, meta) :: rest →
        getSampleRate fs = (meta.bind Meta.sampleRate).getD 24000) := by
  cases h : availableMinutes fs with
  | nil =>
    refine ⟨fun _ => ?_, fun ts s meta rest hr => ?_⟩
    · rw [getSampleRate, h]
    · rw [readDay, h] at hr
      simp at hr
  | cons ts0 mins =>
    refine ⟨fun hr => ?_, fun ts s meta rest hr => ?_⟩
    · rw [readDay, h] at hr
      simp at hr
    · rw [readDay, h] at hr
      simp only [List.map_cons, List.cons.injEq, Prod.mk.injEq] at hr
      obtain ⟨⟨rfl, hpair⟩, -⟩ := hr
      simp only [getSampleRate, h, hpair]
      cases meta with
      | none => simp
      | some m => cases hm : m.sampleRate <;> simp [hm]

/-- Closed witness for `getSampleRate_first_minute`: on `sampleRateDayFS` the
first yielded minute has absent metadata, so the default is returned. -/
theorem getSampleRate_first_minute_witness :
    getSampleRate sampleRateDayFS = 24000 :=
  (getSampleRate_first_minute sampleRateDayFS).2 0 (some [(1, 0)]) none
    [(60, some [(1, 0)], some ⟨some 20000, none, none, none, none⟩)] (by decide)

/-- C1: for any positive pair `(input_rate, output_rate)` with the output rate
evenly dividing the input rate, processing one nominal minute of input
(`input_rate * 60` samples) through a fresh decimator yields exactly
`output_rate * 60` output samples.  (The decimator is spec-modelled, §4.2.) -/
theorem process_nominal_minute_count (inputRate outputRate : Nat)
    (hin : 0 < inputRate) (hout : 0 < outputRate) (hdvd : outputRate ∣ inputRate)
    (x : List Sample) (hx : x.length = inputRate * 60) :
    ((StatefulDecimator.init inputRate outputRate).process x).1.length =
      outputRate * 60 := by
  obtain ⟨k, hk⟩ := hdvd
  subst hk
  rcases Nat.eq_zero_or_pos k with rfl | hk0
  · simp at hin
  · simp only [StatefulDecimator.init, StatefulDecimator.process, blockSums,
      List.nil_append, List.length_map, List.length_range]
    rw [hx, Nat.mul_div_cancel_left k hout,
      show outputRate * k * 60 = k * (outputRate * 60) by ring,
      Nat.mul_div_cancel_left _ hk0]

/-- Closed witness for `process_nominal_minute_count`: decimating one nominal
minute at 2 Hz input / 1 Hz output yields 60 output samples. -/
theorem process_nominal_minute_count_witness :
    ((StatefulDecimator.init 2 1).process
        (List.replicate 120 ((1 : Int), (0 : Int)))).1.length = 1 * 60 :=
  process_nominal_minute_count 2 1 (by decide) (by decide) (by decide) _ (by simp)

/-- C3: a minute yielded without samples (absent, or present but empty) leaves
the whole run state — in particular the decimator's filter state — exactly as
it was: `StatefulDecimator.process` is not invoked, and the minute loop
continues with the remaining minutes from the unchanged state. -/
theorem absent_minute_preserves_state (st : RunState) (ts : Nat)
    (samples : Option (List Sample)) (meta : Option Meta)
    (rest : List (Nat × Option (List Sample) × Option Meta))
    (h : samples = none ∨ samples = some []) :
    stepMinute st (ts, samples, meta) = st
    ∧ (stepMinute st (ts, samples, meta)).decimator = st.decimator
    ∧ ((ts, samples, meta) :: rest).foldl stepMinute st = rest.foldl stepMinute st := by
  have hstep : stepMinute st (ts, samples, meta) = st := by
    rcases h with rfl | rfl <;> simp [stepMinute]
  exact ⟨hstep, by rw [hstep], by rw [List.foldl_cons, hstep]⟩

/-- Closed witness for `absent_minute_preserves_state`: an absent minute in
front of an empty remainder changes nothing. -/
theorem absent_minute_preserves_state_witness :
    stepMinute ⟨StatefulDecimator.init 24000 10, DecimatedBuffer.init 0 10, 0, 0, 0⟩
        (0, none, none) =
      ⟨StatefulDecimator.init 24000 10, DecimatedBuffer.init 0 10, 0, 0, 0⟩ :=
  (absent_minute_preserves_state
    ⟨StatefulDecimator.init 24000 10, DecimatedBuffer.init 0 10, 0, 0, 0⟩
    0 none none [] (Or.inl rfl)).1

/-- C7: the channel loop of `process_day` isolates failures.  For any two
per-channel runs that agree outside channel `c` (so `c` may fail arbitrarily
in one of them): every channel in the list gets an entry (the loop never
aborts), each channel appears with its own outcome, and the entries of all
channels other than `c` are identical — one channel's exception neither
prevents the remaining channels from being processed nor changes their
results. -/
theorem processDay_isolates_failures
    (run run' : String → Except String ChannelSummary)
    (channels : List String) (c : String)
    (hagree : ∀ ch, ch ≠ c → run' ch = run ch) :
    (processDayLoop run' channels).length = channels.length
    ∧ (∀ ch ∈ channels, (ch, (run' ch).toOption) ∈ processDayLoop run' channels)
    ∧ (∀ (i : Nat) (ch : String), channels[i]? = some ch → ch ≠ c →
        (processDayLoop run' channels)[i]? = (processDayLoop run channels)[i]?) := by
  refine ⟨by simp [processDayLoop], fun ch hch => ?_, fun i ch hi hne => ?_⟩
  · exact List.mem_map.mpr ⟨ch, hch, rfl⟩
  · simp only [processDayLoop, List.getElem?_map, hi, Option.map_some']
    rw [hagree ch hne]

/-- Closed witness for `processDay_isolates_failures`: channel `A` raising
does not remove channel `B`'s entry or change its summary. -/
theorem processDay_isolates_failures_witness :
    (processDayLoop
        (fun ch => if ch = "A" then Except.error "boom" else Except.ok ⟨3, 4⟩)
        ["A", "B"]).length = 2
    ∧ (processDayLoop
        (fun ch => if ch = "A" then Except.error "boom" else Except.ok ⟨3, 4⟩)
        ["A", "B"])[1]? =
      (processDayLoop (fun _ => Except.ok ⟨3, 4⟩) ["A", "B"])[1]? := by
  have h := processDay_isolates_failures (fun _ => Except.ok ⟨3, 4⟩)
    (fun ch => if ch = "A" then Except.error "boom" else Except.ok ⟨3, 4⟩)
    ["A", "B"] "A" (fun ch hch => by simp [hch])
  exact ⟨h.1, h.2.2 1 "B" rfl (by decide)⟩

/-- C10: a minute with present samples but absent metadata is still written:
when the decimated chunk is non-empty and passes the slot acceptance tests,
the orchestrator writes it with the fixed defaults `d_clock_ms = 0.0`,
`uncertainty_ms = 999.9`, `quality_grade = 'X'`, `gap_samples = 0`
(decimation_pipeline.py lines 129–146), and advances the counters. -/
theorem missing_meta_defaults (st : RunState) (ts : Nat) (s : List Sample)
    (hs : s ≠ [])
    (hchunk : (st.decimator.process s).1 ≠ [])
    (halign : ts % 60 = 0)
    (hlo : st.buffer.dayStart ≤ ts)
    (hhi : ts < st.buffer.dayStart + 86400)
    (hlen : (st.decimator.process s).1.length = st.buffer.outputRate * 60) :
    stepMinute st (ts, some s, none) =
      ⟨(st.decimator.process s).2,
        ⟨st.buffer.dayStart, st.buffer.outputRate,
          st.buffer.slots.set ((ts - st.buffer.dayStart) / 60)
            (some ⟨(st.decimator.process s).1, 0, 999.9, 'X', 0⟩)⟩,
        st.minutesProcessed + 1,
        st.samplesGenerated + (st.decimator.process s).1.length,
        st.gapsDetected⟩ := by
  have hs' : ¬ s.length = 0 := by simpa [List.length_eq_zero] using hs
  have hc' : ¬ (st.decimator.process s).1.length = 0 := by
    simpa [List.length_eq_zero] using hchunk
  have hacc : ¬ (ts % 60 ≠ 0 ∨ ts < st.buffer.dayStart
      ∨ st.buffer.dayStart + 86400 ≤ ts) := by
    intro hcon
    rcases hcon with h | h | h
    · exact h halign
    · omega
    · omega
  have hlen' : ¬ ((st.decimator.process s).1.length ≠ st.buffer.outputRate * 60) :=
    fun hne => hne hlen
  simp only [stepMinute, DecimatedBuffer.writeMinute, if_neg hs', if_neg hc',
    if_neg hacc, if_neg hlen', if_pos trivial, dClockOf, uncOf, gradeOf, gapInfoOf]

/-- Closed witness for `missing_meta_defaults`: a nominal 20 Hz minute with no
metadata is decimated and written (the minutes counter advances). -/
theorem missing_meta_defaults_witness :
    (stepMinute ⟨StatefulDecimator.init 20 10, DecimatedBuffer.init 0 10, 0, 0, 0⟩
        (60, some (List.replicate 1200 ((1 : Int), (0 : Int))), none)).minutesProcessed = 1 := by
  have hchunklen :
      ((StatefulDecimator.init 20 10).process
        (List.replicate 1200 ((1 : Int), (0 : Int)))).1.length = 600 := by
    simp only [StatefulDecimator.init, StatefulDecimator.process, blockSums,
      List.nil_append, List.length_map, List.length_range, List.length_replicate]
  exact (congrArg RunState.minutesProcessed
    (missing_meta_defaults
      ⟨StatefulDecimator.init 20 10, DecimatedBuffer.init 0 10, 0, 0, 0⟩
      60 (List.replicate 1200 ((1 : Int), (0 : Int)))
      (List.length_pos.mp (by rw [List.length_replicate]; omega))
      (List.length_pos.mp (by rw [hchunklen]; omega))
      (by decide) (by decide) (by decide)
      (by rw [hchunklen]; rfl))).trans rfl

/-- C8 counterexample: on `gapsDayFS` the run sees an absent minute (minute
`0`, corrupt payload) and a forwarded upstream gap count of `5` (minute
`60`'s metadata), yet the gap counter of the finished channel-day run is `0`
— `gaps_detected` is initialized but never incremented — and the emitted
summary carries only the minutes/samples counts, both `0` here. -/
theorem gaps_counter_counterexample :
    (readDay gapsDayFS).head? = some (0, none, none)
    ∧ gapInfoOf (readMinute (minuteDirOf gapsDayFS 60)).2 = 5
    ∧ (processChannelDay gapsDayFS (DecimatedBuffer.init 0 10)).gapsDetected = 0
    ∧ emitSummary (processChannelDay gapsDayFS (DecimatedBuffer.init 0 10)) = ⟨0, 0⟩ := by
  decide

/-- C8 amended: the orchestrator counts minutes processed and samples
generated and emits exactly those two counts in the per-channel summary; its
`gaps_detected` counter is initialized to zero but never incremented by any
minute (neither absent minutes nor forwarded `gap_samples` accumulate into
it), so it is zero for every run, and it is not part of the emitted
summary. -/
theorem channel_summary_amended
    (entries : List (Nat × Option (List Sample) × Option Meta))
    (inputRate : Nat) (b : DecimatedBuffer) :
    (runMinutes entries inputRate b).gapsDetected = 0
    ∧ (∀ st e, (stepMinute st e).gapsDetected = st.gapsDetected)
    ∧ emitSummary (runMinutes entries inputRate b) =
        ⟨(runMinutes entries inputRate b).minutesProcessed,
          (runMinutes entries inputRate b).samplesGenerated⟩ := by
  have hstep : ∀ st e, (stepMinute st e).gapsDetected = st.gapsDetected := by
    intro st e
    rcases e with ⟨ts, samples, meta⟩
    rcases samples with _ | s
    · rfl
    · simp only [stepMinute]
      split_ifs <;> rfl
  refine ⟨?_, hstep, rfl⟩
  suffices h : ∀ (l : List (Nat × Option (List Sample) × Option Meta)) (st : RunState),
      (l.foldl stepMinute st).gapsDetected = st.gapsDetected by
    simpa [runMinutes] using h entries ⟨StatefulDecimator.init inputRate 10, b, 0, 0, 0⟩
  intro l
  induction l with
  | nil => intro st; rfl
  | cons e rest ih =>
    intro st
    rw [List.foldl_cons, ih, hstep]

theorem applyWrites_cons (w : Nat × SlotData) (ws : List (Nat × SlotData))
    (slots : List (Option SlotData)) :
    applyWrites (w :: ws) slots = applyWrites ws (slots.set w.1 (some w.2)) := rfl

theorem applyWrites_length (ws : List (Nat × SlotData))
    (slots : List (Option SlotData)) :
    (applyWrites ws slots).length = slots.length := by
  induction ws generalizing slots with
  | nil => rfl
  | cons w ws ih => rw [applyWrites_cons, ih, List.length_set]

theorem applyWrites_getElem? (ws : List (Nat × SlotData))
    (slots : List (Option SlotData)) (i : Nat) :
    (applyWrites ws slots)[i]? =
      match lastSet ws i with
      | some v => if i < slots.length then some (some v) else none
      | none => slots[i]? := by
  induction ws generalizing slots with
  | nil => simp [applyWrites, lastSet]
  | cons w ws ih =>
    rw [applyWrites_cons, ih]
    cases hls : lastSet ws i with
    | some v => simp [lastSet, hls, List.length_set]
    | none =>
      simp only [lastSet, hls]
      by_cases hw : w.1 = i
      · simp [hw, List.getElem?_set]
      · simp [hw, List.getElem?_set]

theorem applyWrites_idem (ws : List (Nat × SlotData))
    (slots : List (Option SlotData)) :
    applyWrites ws (applyWrites ws slots) = applyWrites ws slots := by
  apply List.ext_getElem?
  intro i
  simp only [applyWrites_getElem?, applyWrites_length]
  cases hls : lastSet ws i <;> simp [hls]

theorem foldl_stepMinute_buffer
    (entries : List (Nat × Option (List Sample) × Option Meta))
    (d : StatefulDecimator) (b : DecimatedBuffer) (m s g : Nat) :
    (entries.foldl stepMinute ⟨d, b, m, s, g⟩).buffer =
      ⟨b.dayStart, b.outputRate,
        applyWrites (writeOps b.dayStart b.outputRate d entries) b.slots⟩ := by
  induction entries generalizing d b m s g with
  | nil => rfl
  | cons e rest ih =>
    obtain ⟨ts, samples, meta⟩ := e
    rw [List.foldl_cons]
    cases samples with
    | none =>
      rw [show stepMinute ⟨d, b, m, s, g⟩ (ts, none, meta) = ⟨d, b, m, s, g⟩ from rfl,
        ih]
      rfl
    | some s' =>
      by_cases hs0 : s'.length = 0
      · rw [show stepMinute ⟨d, b, m, s, g⟩ (ts, some s', meta) = ⟨d, b, m, s, g⟩ from
          by simp [stepMinute, hs0], ih]
        simp [writeOps, hs0]
      · by_cases hch : (d.process s').1.length = 0
        · rw [show stepMinute ⟨d, b, m, s, g⟩ (ts, some s', meta) =
              ⟨(d.process s').2, b, m, s, g⟩ from by simp [stepMinute, hs0, hch], ih]
          simp [writeOps, hs0, hch]
        · by_cases hc1 : ts % 60 ≠ 0 ∨ ts < b.dayStart ∨ b.dayStart + 86400 ≤ ts
          · rw [show stepMinute ⟨d, b, m, s, g⟩ (ts, some s', meta) =
                ⟨(d.process s').2, b, m, s, g⟩ from
              by simp [stepMinute, hs0, hch, DecimatedBuffer.writeMinute, hc1], ih]
            simp [writeOps, hs0, hch, hc1]
          · by_cases hc2 : (d.process s').1.length ≠ b.outputRate * 60
            · rw [show stepMinute ⟨d, b, m, s, g⟩ (ts, some s', meta) =
                  ⟨(d.process s').2, b, m, s, g⟩ from
                by simp [stepMinute, hs0, hch, DecimatedBuffer.writeMinute, hc1, hc2], ih]
              simp [writeOps, hs0, hch, hc1, hc2]
            · rw [show stepMinute ⟨d, b, m, s, g⟩ (ts, some s', meta) =
                  ⟨(d.process s').2,
                    ⟨b.dayStart, b.outputRate,
                      b.slots.set ((ts - b.dayStart) / 60)
                        (some ⟨(d.process s').1, dClockOf meta, uncOf meta,
                          gradeOf meta, gapInfoOf meta⟩)⟩,
                    m + 1, s + (d.process s').1.length, g⟩ from
                by simp [stepMinute, hs0, hch, DecimatedBuffer.writeMinute, hc1, hc2], ih]
              simp [writeOps, hs0, hch, hc1, hc2, applyWrites_cons]

/-- C2: re-running a channel-day against identical raw inputs is idempotent:
the buffer (sample slots together with their per-minute metadata rows)
produced by the second run is byte-identical to the first run's — every
accepted write lands on the same slot with the same payload and overwrites
idempotently, and untouched slots stay untouched.  (The buffer is
spec-modelled, §4.3.) -/
theorem processChannelDay_idempotent (fs : DayFS) (b : DecimatedBuffer) :
    (processChannelDay fs (processChannelDay fs b).buffer).buffer =
      (processChannelDay fs b).buffer := by
  unfold processChannelDay runMinutes
  rw [foldl_stepMinute_buffer, foldl_stepMinute_buffer]
  show (⟨b.dayStart, b.outputRate,
      applyWrites
        (writeOps b.dayStart b.outputRate
          (StatefulDecimator.init (getSampleRate fs) 10) (readDay fs))
        (applyWrites
          (writeOps b.dayStart b.outputRate
            (StatefulDecimator.init (getSampleRate fs) 10) (readDay fs))
          b.slots)⟩ : DecimatedBuffer) = _
  rw [applyWrites_idem]

end GrapeRecorder
